import Mathlib

/-!
# Verification of `range-request-fetcher` (src/index.js)

A shallow embedding of the transfer controller in `src/index.js`
(`rangeRequestFetcher`) together with proofs about its chunk sequencing,
progress accounting, pause gate, retry/backoff policy, header merging,
size discovery and sink lifecycle.

Conventions:
* JavaScript numbers that only ever hold byte counts are modelled as `Nat`.
* JavaScript header objects are modelled as association lists
  `List (String × String)` with last-write-wins lookup via `jsGet`.
* JavaScript truthiness of a string value is `s ≠ ""`.
* Asynchronous control flow is modelled by explicit traces / scripts:
  the sequence of flag values observed at successive poll points, or the
  sequence of outcomes the transport produces for successive attempts.
-/

namespace RangeRequestFetcher

/-! ## Header builder (src/index.js lines 20-24)

`buildHeaders` merges the caller-supplied `headers` object with per-request
`extra` entries via object spread `{ ...headers, ...extra }` (later keys win),
then adds `Authorization: Bearer <token>` when `token` is truthy and
`h.Authorization` is falsy (absent or the empty string). -/

/-- JS object property lookup on an association list where later entries win
(the list is built so that at most one entry per key exists, but lookup is
defined to take the last matching entry to mirror spread semantics). -/
def jsGet (h : List (String × String)) (k : String) : Option String :=
  (h.reverse.find? (fun p => p.1 == k)).map (·.2)

/-- JS object spread `{ ...a, ...b }`: all keys of `a` not shadowed by `b`,
then all entries of `b`. -/
def jsSpread (a b : List (String × String)) : List (String × String) :=
  a.filter (fun p => (jsGet b p.1).isNone) ++ b

/-- JS truthiness of an optional string property: `undefined` and `""` are
falsy, every other string is truthy. -/
def truthy : Option String → Bool
  | none => false
  | some s => s ≠ ""

/-- `buildHeaders` from src/index.js lines 20-24:
`const h = { ...headers, ...extra }`;
`if (token && !h.Authorization) h.Authorization = Bearer <token>`. -/
def buildHeaders (headers : List (String × String)) (token : Option String)
    (extra : List (String × String)) : List (String × String) :=
  let h := jsSpread headers extra
  if truthy token && !(truthy (jsGet h "Authorization")) then
    jsSpread h [("Authorization", "Bearer " ++ token.getD "")]
  else h

/-- The `extra` headers passed for a range request
(src/index.js lines 108-111). -/
def rangeExtra (start e : Nat) : List (String × String) :=
  [("Range", "bytes=" ++ toString start ++ "-" ++ toString e),
   ("Cache-Control", "no-cache")]

/-! ## Progress accountant (src/index.js lines 26-31 and 223)

`getProgress` returns
`totalSize > 0 ? Math.floor(((downloadedSize + currentChunkProgress) / totalSize) * 100) : 0`.
For non-negative integers, `Math.floor((a / b) * 100) = (a * 100) / b` in
natural-number division. -/

/-- `getProgress` / the value passed to `onProgress` by `updateProgress`
(src/index.js lines 26-31, 223). -/
def getProgress (totalSize downloadedSize currentChunkProgress : Nat) : Nat :=
  if 0 < totalSize then (downloadedSize + currentChunkProgress) * 100 / totalSize
  else 0

/-! ## Pause gate (src/index.js lines 47-59)

`waitWhilePaused` creates a promise whose executor calls `checkPause` once
synchronously; `checkPause` throws when `isAborted`, resolves when not
`isPaused`, and otherwise re-schedules itself with `setTimeout(checkPause, 100)`.
A throw during the first, synchronous call happens inside the promise executor
and rejects the promise; a throw inside a later `setTimeout` callback does not
reject the promise (it escapes to the host), so the promise never settles.

We model the flag values observed at the successive calls of `checkPause` as a
trace `List (Bool × Bool)` of `(isAborted, isPaused)` pairs. -/

/-- Outcome of the pause-gate promise for a finite observation trace. -/
inductive WaitOutcome where
  /-- the promise resolved -/
  | resolved
  /-- the promise rejected (throw inside the executor) -/
  | rejected
  /-- `checkPause` threw inside a `setTimeout` callback: the throw escapes and
  the promise never settles -/
  | hung
  /-- the trace ended while still re-polling -/
  | polling
  deriving DecidableEq, Repr

/-- One run of `checkPause` (src/index.js lines 49-56) and its successors;
`inExecutor` is true exactly for the first, synchronous call made by the
promise executor. -/
def checkPause (inExecutor : Bool) : List (Bool × Bool) → WaitOutcome
  | [] => .polling
  | (aborted, paused) :: rest =>
    if aborted then (if inExecutor then .rejected else .hung)
    else if !paused then .resolved
    else checkPause false rest

/-- `waitWhilePaused` (src/index.js lines 47-59) on a trace of flag
observations: the first observation is made synchronously in the executor. -/
def waitWhilePaused (trace : List (Bool × Bool)) : WaitOutcome :=
  checkPause true trace

/-! ## Chunk ranges (src/index.js lines 88-94)

The outer loop runs `while (downloadedSize < totalSize && !isAborted)` and per
iteration computes `start = downloadedSize`,
`end = Math.min(start + chunkSize - 1, totalSize - 1)`, all retries of one
chunk reusing the same range. Under a range-compliant transport a committed
chunk delivers exactly `end - start + 1` bytes (src/index.js line 161:
`downloadedSize += chunk.byteLength`), so the next dispatch starts at
`end + 1`. `chunkRangesFrom` lists the successive `[start, end]` ranges from a
given committed size; the guard `0 < c` makes the recursion well-founded (for
`chunkSize = 0` the source loop would not progress either). -/

/-- `end` of the chunk dispatched at committed size `start`
(src/index.js line 94). -/
def chunkEnd (c t start : Nat) : Nat :=
  min (start + c - 1) (t - 1)

/-- The ranges dispatched by the outer loop of src/index.js lines 88-94 from
committed size `start`, assuming every chunk commits its full range. `fuel`
is only a structural bound on the number of iterations: each dispatched chunk
advances `start` by at least one byte, so `t - start` iterations always
suffice and any `fuel ≥ t - start` yields the same list
(`chunkRangesAux_fuel_irrel`). -/
def chunkRangesAux (c t : Nat) : Nat → Nat → List (Nat × Nat)
  | 0, _ => []
  | fuel + 1, start =>
    if start < t ∧ 0 < c then
      (start, chunkEnd c t start) :: chunkRangesAux c t fuel (chunkEnd c t start + 1)
    else []

/-- All ranges of a complete, unaborted transfer. -/
def chunkRanges (c t : Nat) : List (Nat × Nat) :=
  chunkRangesAux c t t 0

/-- Length in bytes of a range `[start, end]`. -/
def rangeLen (r : Nat × Nat) : Nat := r.2 + 1 - r.1

/-! ## The chunk loop as an interpreter (src/index.js lines 88-180)

The mutable accounting state is the pair
`(downloadedSize, currentChunkProgress)` (src/index.js lines 12-13). The
transport's behaviour for one attempt of the retry loop is a script entry: the
fetch either fails (rejects or returns `!res.ok`, line 116) or succeeds and
streams a list of fragment sizes, after which the stream either ends normally
(the chunk commits, lines 159-163) or the read throws (caught at line 167).
The pause gate and the flag checks inside the loop do not mutate this state,
so runs without abort are fully described by these scripts. The interpreter
records every intermediate value of the state pair: `getProgress` can be
called, and the 250 ms progress timer can fire, at any await point, so the
observable progress values are exactly the images of these states. -/

/-- The mutable progress-accounting state:
`downloadedSize` (line 12) and `currentChunkProgress` (line 13). -/
structure PState where
  d : Nat
  cur : Nat
  deriving DecidableEq, Repr

/-- Transport behaviour for one attempt of the retry loop
(src/index.js lines 98-177). -/
inductive Attempt where
  /-- `fetch` rejected or `!res.ok` (line 116): caught at line 167,
  the state pair is untouched -/
  | fail
  /-- `res.ok`: `currentChunkProgress = 0` (line 119), then the reader
  delivers fragments of the given sizes (line 139); `completes = true` means
  the stream ended and the chunk committed (lines 159-162), `false` means
  `reader.read()` threw after the listed fragments (caught at line 167) -/
  | stream (frags : List Nat) (completes : Bool)
  deriving DecidableEq, Repr

/-- States after each `currentChunkProgress = receivedLength` assignment
(src/index.js line 139), one per delivered fragment. -/
def receivedStates (d acc : Nat) : List Nat → List PState
  | [] => []
  | f :: fs => ⟨d, acc + f⟩ :: receivedStates d (acc + f) fs

/-- Result of one attempt: intermediate states, final state, whether the
chunk committed, and the number of `writer.write` calls issued. -/
structure AttemptOut where
  states : List PState
  final : PState
  ok : Bool
  writes : Nat
  deriving DecidableEq, Repr

/-- One attempt of the retry loop (src/index.js lines 99-166) on state `s`. -/
def runAttempt (s : PState) : Attempt → AttemptOut
  | .fail => ⟨[], s, false, 0⟩
  | .stream frags completes =>
    let streaming := PState.mk s.d 0 :: receivedStates s.d 0 frags
    let total := frags.sum
    if completes then
      ⟨streaming ++ [⟨s.d + total, 0⟩], ⟨s.d + total, 0⟩, true, 1⟩
    else
      ⟨streaming, ⟨s.d, total⟩, false, 0⟩

/-- How the retry loop (src/index.js lines 98-177) exited. -/
inductive ChunkResult where
  /-- `success = true`: the chunk committed -/
  | committed
  /-- the `throw` of line 174: retries reached `maxRetries` -/
  | threw
  /-- the loop guard `retries < maxRetries` was false at entry with
  `success` still false (only possible when `maxRetries = 0`): the loop body
  never runs and control falls through to the outer loop unchanged -/
  | stuck
  /-- the transport script was exhausted while the loop would attempt again -/
  | outOfScript
  deriving DecidableEq, Repr

/-- Result of the retry loop for one chunk. -/
structure ChunkOut where
  states : List PState
  final : PState
  result : ChunkResult
  writes : Nat
  attempts : Nat
  deriving DecidableEq, Repr

/-- The retry loop `while (!success && retries < maxRetries && !isAborted)`
(src/index.js lines 95-177) for an unaborted run, driven by the attempt
script. On a failed attempt `retries` is incremented (line 172) and the loop
throws when `retries >= maxRetries` (line 174). -/
def runChunk (mr : Nat) : List Attempt → PState → Nat → ChunkOut
  | [], s, retries =>
    if retries < mr then ⟨[], s, .outOfScript, 0, 0⟩ else ⟨[], s, .stuck, 0, 0⟩
  | a :: rest, s, retries =>
    if retries < mr then
      let o := runAttempt s a
      if o.ok then ⟨o.states, o.final, .committed, o.writes, 1⟩
      else if mr ≤ retries + 1 then ⟨o.states, o.final, .threw, o.writes, 1⟩
      else
        let o2 := runChunk mr rest o.final (retries + 1)
        ⟨o.states ++ o2.states, o2.final, o2.result, o.writes + o2.writes,
          1 + o2.attempts⟩
    else ⟨[], s, .stuck, 0, 0⟩

/-- How the outer chunk loop (src/index.js lines 88-180) exited. -/
inductive TransferOutcome where
  /-- `downloadedSize >= totalSize`: the loop finished -/
  | done
  /-- the chunk-exhausted throw of line 174 propagated, for the chunk with
  the given `[start, end]` range -/
  | failed (s e : Nat)
  /-- the retry loop fell through without committing and without throwing
  (`maxRetries = 0`); the outer loop re-runs the identical iteration with
  identical state, so the source program loops forever at committed size `d` -/
  | stuck (d : Nat)
  /-- the script ran out of chunk entries -/
  | outOfScript
  deriving DecidableEq, Repr

/-- Result of the whole chunk loop. -/
structure TransferOut where
  states : List PState
  dFinal : Nat
  outcome : TransferOutcome
  deriving DecidableEq, Repr

/-- The outer loop `while (downloadedSize < totalSize && !isAborted)`
(src/index.js lines 88-180) for an unaborted run: per iteration it computes
`start = downloadedSize`, `end = chunkEnd`, and runs the retry loop with
`retries = 0`; a committed chunk advances `downloadedSize` by the received
byte length and resets `currentChunkProgress` to 0. One script entry per
dispatched chunk. -/
def runTransfer (c t mr : Nat) : List (List Attempt) → Nat → TransferOut
  | [], d => if d < t then ⟨[], d, .outOfScript⟩ else ⟨[], d, .done⟩
  | sc :: rest, d =>
    if d < t then
      let o := runChunk mr sc ⟨d, 0⟩ 0
      match o.result with
      | .committed =>
        let o2 := runTransfer c t mr rest o.final.d
        ⟨o.states ++ o2.states, o2.dFinal, o2.outcome⟩
      | .threw => ⟨o.states, o.final.d, .failed d (chunkEnd c t d)⟩
      | .stuck => ⟨o.states, d, .stuck d⟩
      | .outOfScript => ⟨o.states, o.final.d, .outOfScript⟩
    else ⟨[], d, .done⟩

/-- A transport attempt is range-compliant for a chunk of `len` bytes when it
never delivers more than `len` bytes in total (a server honouring
`Range: bytes=start-end` sends at most `end - start + 1` bytes). -/
def attemptCompliant (len : Nat) : Attempt → Bool
  | .fail => true
  | .stream frags _ => frags.sum ≤ len

/-- Checks that every attempt of every dispatched chunk is range-compliant
for that chunk's range, following the same recursion as `runTransfer`. -/
def runCompliant (c t mr : Nat) : List (List Attempt) → Nat → Bool
  | [], _ => true
  | sc :: rest, d =>
    if d < t then
      sc.all (attemptCompliant (chunkEnd c t d + 1 - d)) &&
        (match (runChunk mr sc ⟨d, 0⟩ 0).result with
         | .committed => runCompliant c t mr rest (runChunk mr sc ⟨d, 0⟩ 0).final.d
         | _ => true)
    else true

/-! ## Size discovery and sink lifecycle (src/index.js lines 61-203)

The controller body: HEAD request (lines 65-70), size parsing (lines 72-73),
sink acquisition (lines 83-84), the chunk loop (abstracted to its outcome),
the finalizing close (line 190), and the catch block (lines 193-202) which
closes the writer again if it was ever assigned. -/

/-- What `headResponse.headers.get('Content-Length')` yields, as seen by
`parseInt(...) || 0` (src/index.js line 72). -/
inductive ContentLen where
  /-- the header is absent: `parseInt(null)` is `NaN`, `NaN || 0` is `0` -/
  | missing
  /-- the header has no leading integer: `parseInt` gives `NaN`, `|| 0` gives `0` -/
  | unparsable (s : String)
  /-- `parseInt` parses the integer `n`; `n || 0` is `n` (and `0` stays `0`) -/
  | num (n : Int)
  deriving DecidableEq, Repr

/-- The value of `totalSize` after line 72. -/
def parsedSize : ContentLen → Int
  | .missing => 0
  | .unparsable _ => 0
  | .num n => n

/-- How the chunk loop (lines 88-180) ended, abstracted for the sink
lifecycle. -/
inductive BodyOutcome where
  /-- the loop completed: control reaches line 188 -/
  | success
  /-- abort observed: the `throw` of line 185 -/
  | aborted
  /-- a throw from inside the loop (e.g. the chunk-exhausted throw of
  line 174) propagated -/
  | failure
  deriving DecidableEq, Repr

/-- One run of the controller, abstracted to the branch points that decide
the sink lifecycle. -/
structure World where
  headOk : Bool
  contentLength : ContentLen
  acquireOk : Bool
  body : BodyOutcome
  closeOk : Bool
  deriving DecidableEq, Repr

/-- How the download promise settled. -/
inductive TransferResult where
  /-- resolved: status `done` -/
  | ok
  /-- rejected: `Failed to get file info` (line 70) -/
  | errHead
  /-- rejected: `Could not determine file size` (line 73) -/
  | errSize
  /-- rejected: `showSaveFilePicker`/`createWritable` failed (lines 83-84) -/
  | errAcquire
  /-- rejected: `Download aborted` (line 185) -/
  | errAborted
  /-- rejected: the finalizing `writer.close()` of line 190 threw -/
  | errClose
  /-- rejected: some other error from inside the loop -/
  | errOther
  deriving DecidableEq, Repr

/-- Sink-lifecycle accounting for one controller run. -/
structure SinkTrace where
  acquires : Nat
  closes : Nat
  result : TransferResult
  deriving DecidableEq, Repr

/-- Control-flow skeleton of `downloadPromise` (src/index.js lines 61-203),
counting sink acquisitions (`showSaveFilePicker`, line 83) and
`writer.close()` invocations (lines 190 and 197). A throw before line 83
reaches the catch with `writer` unset, so no close happens there; any throw
after line 84 closes once in the catch (line 197, its own failure swallowed);
if the finalizing close of line 190 itself throws, the catch closes a second
time. -/
def runController (w : World) : SinkTrace :=
  if !w.headOk then ⟨0, 0, .errHead⟩
  else if parsedSize w.contentLength = 0 then ⟨0, 0, .errSize⟩
  else if !w.acquireOk then ⟨1, 0, .errAcquire⟩
  else
    match w.body with
    | .success =>
      if w.closeOk then ⟨1, 1, .ok⟩
      else ⟨1, 2, .errClose⟩
    | .aborted => ⟨1, 1, .errAborted⟩
    | .failure => ⟨1, 1, .errOther⟩

/-! ## Promise settlement and the backoff wait (src/index.js line 175)

The backoff wait is `await new Promise(r => setTimeout(r, 1000 * retries))`.
A pending promise settles at the earliest of its settle sources. The backoff
promise's only source is its timer: no abort signal is attached to it, and
`abort()` (lines 215-220) only calls `currentController.abort()`, while at
line 175 `currentController` is `null` (assigned at line 168 before the
wait). A fetch promise (lines 106-114), by contrast, carries
`signal: currentController.signal` and so also settles when the signal
aborts. -/

/-- A settle source for a pending promise. -/
inductive SettleSource where
  /-- a `setTimeout` callback firing at the given time -/
  | timer (t : Nat)
  /-- rejection through an attached `AbortController` signal -/
  | abortSignal
  deriving DecidableEq, Repr

/-- The time at which one source settles the promise, given that `abort()` is
called at time `abortAt` (`none` = never). -/
def sourceTime (abortAt : Option Nat) : SettleSource → Option Nat
  | .timer t => some t
  | .abortSignal => abortAt

/-- The time at which the promise settles: the earliest settling source. -/
def settleTime (sources : List SettleSource) (abortAt : Option Nat) : Option Nat :=
  (sources.filterMap (sourceTime abortAt)).min?

/-- The settle sources of the backoff promise of src/index.js line 175, after
failure number `retries` (the counter was incremented at line 172 before the
wait): a single timer at `1000 * retries` ms, no abort signal. -/
def backoffSources (retries : Nat) : List SettleSource :=
  [.timer (1000 * retries)]

/-- The duration of the backoff wait after failure number `retries`
(src/index.js line 175: `setTimeout(r, 1000 * retries)`). -/
def backoffDelay (retries : Nat) : Nat := 1000 * retries

/-- Whether an abort at time `a` settles the given promise strictly earlier
than it would settle without any abort. -/
def cancelledBy (sources : List SettleSource) (a : Nat) : Bool :=
  match settleTime sources (some a), settleTime sources none with
  | some x, some y => decide (x < y)
  | some _, none => true
  | _, _ => false

/-! ## The control surface (src/index.js lines 205-224)

`pause`, `resume` and `abort` mutate the closure variables unconditionally —
nothing in their bodies consults whether the download promise has settled —
and each emits one status callback. -/

/-- The closure state the control surface can observe or mutate. -/
structure ControlState where
  isPaused : Bool
  isAborted : Bool
  /-- `currentController !== null` -/
  hasController : Bool
  /-- `progressInterval !== null` -/
  intervalActive : Bool
  totalSize : Nat
  downloadedSize : Nat
  currentChunkProgress : Nat
  deriving DecidableEq, Repr

/-- `pause()` (src/index.js lines 207-210): set `isPaused`, emit `paused`. -/
def pauseFn (s : ControlState) : ControlState × List String :=
  ({ s with isPaused := true }, ["paused"])

/-- `resume()` (src/index.js lines 211-214): clear `isPaused`,
emit `downloading`. -/
def resumeFn (s : ControlState) : ControlState × List String :=
  ({ s with isPaused := false }, ["downloading"])

/-- `abort()` (src/index.js lines 215-220): set `isAborted`, stop the progress
timer, cancel `currentController` if one exists (an effect on the in-flight
fetch, not on this state), emit `aborted`. -/
def abortFn (s : ControlState) : ControlState × List String :=
  ({ s with isAborted := true, intervalActive := false }, ["aborted"])

/-- `getProgress()` (src/index.js line 223) on a control state. -/
def getProgressOf (s : ControlState) : Nat :=
  getProgress s.totalSize s.downloadedSize s.currentChunkProgress

/-! ## Helper lemmas -/

lemma jsGet_append (a b : List (String × String)) (k : String) :
    jsGet (a ++ b) k = (jsGet b k).or (jsGet a k) := by
  unfold jsGet
  rw [List.reverse_append, List.find?_append]
  cases b.reverse.find? (fun p => p.1 == k) <;> simp

lemma jsGet_cons (x : String × String) (l : List (String × String)) (k : String) :
    jsGet (x :: l) k = (jsGet l k).or (if x.1 == k then some x.2 else none) := by
  have : x :: l = [x] ++ l := rfl
  rw [this, jsGet_append]
  cases h : jsGet l k
  · simp only [Option.or_none, Option.none_or]
    unfold jsGet
    by_cases hx : x.1 == k <;> simp [hx, List.find?]
  · simp

lemma jsGet_nil (k : String) : jsGet [] k = none := rfl

lemma jsGet_filter (a b : List (String × String)) (k : String)
    (hb : jsGet b k = none) :
    jsGet (a.filter (fun p => (jsGet b p.1).isNone)) k = jsGet a k := by
  induction a with
  | nil => rfl
  | cons x xs ih =>
    rw [List.filter_cons]
    by_cases hP : (jsGet b x.1).isNone
    · simp only [hP, if_pos]
      rw [jsGet_cons, jsGet_cons, ih]
    · simp only [hP, if_neg, Bool.false_eq_true, not_false_iff]
      rw [jsGet_cons, ih]
      have hx : (x.1 == k) = false := by
        by_contra hcon
        have : x.1 = k := by
          have := eq_true_of_ne_false hcon
          exact eq_of_beq (by simpa using this)
        rw [this, hb] at hP
        simp at hP
      simp [hx]

lemma jsGet_spread (a b : List (String × String)) (k : String) :
    jsGet (jsSpread a b) k = (jsGet b k).or (jsGet a k) := by
  unfold jsSpread
  rw [jsGet_append]
  cases hb : jsGet b k
  · rw [jsGet_filter a b k hb]
  · simp

lemma jsGet_rangeExtra_range (s e : Nat) :
    jsGet (rangeExtra s e) "Range" =
      some ("bytes=" ++ toString s ++ "-" ++ toString e) := by
  unfold rangeExtra
  rw [jsGet_cons, jsGet_cons, jsGet_nil]
  simp [show (("Cache-Control" : String) == "Range") = false from by decide,
    show (("Range" : String) == "Range") = true from by decide]

lemma jsGet_rangeExtra_cache (s e : Nat) :
    jsGet (rangeExtra s e) "Cache-Control" = some "no-cache" := by
  unfold rangeExtra
  rw [jsGet_cons, jsGet_cons, jsGet_nil]
  simp [show (("Cache-Control" : String) == "Cache-Control") = true from by decide]

lemma jsGet_rangeExtra_other (s e : Nat) (k : String)
    (h1 : k ≠ "Range") (h2 : k ≠ "Cache-Control") :
    jsGet (rangeExtra s e) k = none := by
  unfold rangeExtra
  rw [jsGet_cons, jsGet_cons, jsGet_nil]
  have b1 : ("Range" == k) = false := by
    simp only [beq_eq_false_iff_ne, ne_eq]
    exact fun hcon => h1 hcon.symm
  have b2 : ("Cache-Control" == k) = false := by
    simp only [beq_eq_false_iff_ne, ne_eq]
    exact fun hcon => h2 hcon.symm
  simp [b1, b2]

lemma chunkEnd_ge {c t s : Nat} (hs : s < t) (hc : 0 < c) :
    s ≤ chunkEnd c t s := by
  unfold chunkEnd; omega

lemma chunkEnd_lt {c t s : Nat} (hs : s < t) : chunkEnd c t s < t := by
  unfold chunkEnd; omega

lemma chunkRangesAux_of_ge (c t s : Nat) (h : t ≤ s) :
    ∀ fuel, chunkRangesAux c t fuel s = [] := by
  intro fuel
  cases fuel with
  | zero => rfl
  | succ n => simp [chunkRangesAux]; omega

lemma chunkRangesAux_cons (c t fuel : Nat) {s : Nat} (hs : s < t)
    (hc : 0 < c) :
    chunkRangesAux c t (fuel + 1) s =
      (s, chunkEnd c t s) :: chunkRangesAux c t fuel (chunkEnd c t s + 1) := by
  simp [chunkRangesAux, hs, hc]

lemma chunkRangesAux_cover (c t : Nat) (hc : 0 < c) (p : Nat) :
    ∀ fuel s, t ≤ s + fuel →
      (chunkRangesAux c t fuel s).countP
        (fun r => decide (r.1 ≤ p ∧ p ≤ r.2)) =
        if s ≤ p ∧ p < t then 1 else 0 := by
  intro fuel
  induction fuel with
  | zero =>
    intro s h
    simp only [chunkRangesAux, List.countP_nil]
    have : ¬(s ≤ p ∧ p < t) := by omega
    simp [this]
  | succ n ih =>
    intro s h
    by_cases hst : s < t
    · have h1 : s ≤ chunkEnd c t s := chunkEnd_ge hst hc
      have h2 : chunkEnd c t s < t := chunkEnd_lt hst
      rw [chunkRangesAux_cons c t n hst hc, List.countP_cons,
        ih (chunkEnd c t s + 1) (by omega)]
      simp only [decide_eq_true_eq]
      split_ifs <;> omega
    · rw [chunkRangesAux_of_ge c t s (by omega)]
      have : ¬(s ≤ p ∧ p < t) := by omega
      simp [this]

lemma chunkRangesAux_head (c t fuel s : Nat) :
    ∀ y ∈ (chunkRangesAux c t fuel s).head?, y.1 = s := by
  cases fuel with
  | zero => simp [chunkRangesAux]
  | succ n =>
    by_cases h : s < t ∧ 0 < c
    · rw [chunkRangesAux_cons c t n h.1 h.2]
      simp
    · simp only [chunkRangesAux, h, if_neg, dite_false]
      simp [h]

lemma chunkRangesAux_chain (c t : Nat) :
    ∀ fuel s, List.Chain' (fun a b => b.1 = a.2 + 1)
      (chunkRangesAux c t fuel s) := by
  intro fuel
  induction fuel with
  | zero => intro s; simp [chunkRangesAux]
  | succ n ih =>
    intro s
    by_cases h : s < t ∧ 0 < c
    · rw [chunkRangesAux_cons c t n h.1 h.2, List.chain'_cons']
      refine ⟨?_, ih _⟩
      intro y hy
      simpa using chunkRangesAux_head c t n (chunkEnd c t s + 1) y hy
    · simp [chunkRangesAux, h]

lemma chunkRangesAux_mem (c t : Nat) (hc : 0 < c) :
    ∀ fuel s, ∀ r ∈ chunkRangesAux c t fuel s,
      r.1 ≤ r.2 ∧ r.2 = min (r.1 + c - 1) (t - 1) := by
  intro fuel
  induction fuel with
  | zero => intro s r hr; simp [chunkRangesAux] at hr
  | succ n ih =>
    intro s r hr
    by_cases h : s < t
    · rw [chunkRangesAux_cons c t n h hc] at hr
      rcases List.mem_cons.mp hr with rfl | hr
      · exact ⟨chunkEnd_ge h hc, rfl⟩
      · exact ih _ r hr
    · rw [chunkRangesAux_of_ge c t s (by omega)] at hr
      simp at hr

lemma chunkRangesAux_dvd (c t : Nat) (hc : 0 < c) (hdvd : c ∣ t) :
    ∀ fuel s, c ∣ s → ∀ r ∈ chunkRangesAux c t fuel s, rangeLen r = c := by
  intro fuel
  induction fuel with
  | zero => intro s _ r hr; simp [chunkRangesAux] at hr
  | succ n ih =>
    intro s hs r hr
    by_cases h : s < t
    · have hds : c ∣ (t - s) := Nat.dvd_sub' hdvd hs
      have hle : c ≤ t - s := Nat.le_of_dvd (by omega) hds
      have hEnd : chunkEnd c t s = s + c - 1 := by
        unfold chunkEnd; omega
      rw [chunkRangesAux_cons c t n h hc] at hr
      rcases List.mem_cons.mp hr with rfl | hr
      · simp only [rangeLen, hEnd]
        omega
      · have hnext : chunkEnd c t s + 1 = s + c := by omega
        rw [hnext] at hr
        exact ih (s + c) (hs.add (dvd_refl c)) r hr
    · rw [chunkRangesAux_of_ge c t s (by omega)] at hr
      simp at hr

lemma chunkRangesAux_get_fst (c t : Nat) (hc : 0 < c) :
    ∀ fuel s i r, ((chunkRangesAux c t fuel s).drop i).head? = some r →
      r.1 = s + (((chunkRangesAux c t fuel s).take i).map rangeLen).sum := by
  intro fuel
  induction fuel with
  | zero => intro s i r h; simp [chunkRangesAux] at h
  | succ n ih =>
    intro s i r h
    by_cases hst : s < t
    · rw [chunkRangesAux_cons c t n hst hc] at h ⊢
      cases i with
      | zero =>
        simp only [List.drop_zero, List.head?_cons, Option.some.injEq] at h
        subst h; simp
      | succ j =>
        simp only [List.drop_succ_cons] at h
        have := ih (chunkEnd c t s + 1) j r h
        simp only [List.take_succ_cons, List.map_cons, List.sum_cons]
        have hge : s ≤ chunkEnd c t s := chunkEnd_ge hst hc
        simp only [rangeLen] at this ⊢
        omega
    · rw [chunkRangesAux_of_ge c t s (by omega)] at h
      simp at h

lemma receivedStates_mem (d : Nat) (fs : List Nat) :
    ∀ acc, ∀ x ∈ receivedStates d acc fs, x.d = d ∧ x.cur ≤ acc + fs.sum := by
  induction fs with
  | nil => intro acc x hx; simp [receivedStates] at hx
  | cons f fs ih =>
    intro acc x hx
    simp only [receivedStates] at hx
    rcases List.mem_cons.mp hx with rfl | hx
    · refine ⟨rfl, ?_⟩
      simp only [List.sum_cons]
      omega
    · obtain ⟨h1, h2⟩ := ih (acc + f) x hx
      refine ⟨h1, ?_⟩
      simp only [List.sum_cons]
      omega

lemma pairwise_dle_const (l : List PState) (d : Nat)
    (h : ∀ x ∈ l, x.d = d) :
    List.Pairwise (fun x y => x.d ≤ y.d) l :=
  List.pairwise_of_forall_mem_list (fun x hx y hy => by rw [h x hx, h y hy])

lemma runAttempt_not_ok (s : PState) (a : Attempt)
    (h : (runAttempt s a).ok = false) :
    (runAttempt s a).writes = 0 ∧ (runAttempt s a).final.d = s.d := by
  cases a with
  | fail => exact ⟨rfl, rfl⟩
  | stream frags completes =>
    cases completes with
    | false => exact ⟨rfl, rfl⟩
    | true => simp [runAttempt] at h

lemma runAttempt_ok (s : PState) (a : Attempt)
    (h : (runAttempt s a).ok = true) :
    (runAttempt s a).writes = 1 ∧ (runAttempt s a).final.cur = 0 := by
  cases a with
  | fail => simp [runAttempt] at h
  | stream frags completes =>
    cases completes with
    | false => simp [runAttempt] at h
    | true => exact ⟨rfl, rfl⟩

lemma runAttempt_states_d (s : PState) (a : Attempt) :
    List.Pairwise (fun x y => x.d ≤ y.d) (runAttempt s a).states ∧
    (∀ x ∈ (runAttempt s a).states,
      s.d ≤ x.d ∧ x.d ≤ (runAttempt s a).final.d) ∧
    s.d ≤ (runAttempt s a).final.d := by
  cases a with
  | fail =>
    exact ⟨List.Pairwise.nil, by simp [runAttempt], le_refl _⟩
  | stream frags completes =>
    have hrs := receivedStates_mem s.d frags 0
    have hconst : ∀ x ∈ PState.mk s.d 0 :: receivedStates s.d 0 frags,
        x.d = s.d := by
      intro x hx
      rcases List.mem_cons.mp hx with rfl | hx
      · rfl
      · exact (hrs x hx).1
    cases completes with
    | false =>
      have heq : runAttempt s (.stream frags false) =
          ⟨PState.mk s.d 0 :: receivedStates s.d 0 frags,
            ⟨s.d, frags.sum⟩, false, 0⟩ := rfl
      rw [heq]
      refine ⟨pairwise_dle_const _ s.d hconst, ?_, le_refl _⟩
      intro x hx
      rw [hconst x hx]
      exact ⟨le_refl _, le_refl _⟩
    | true =>
      have heq : runAttempt s (.stream frags true) =
          ⟨(PState.mk s.d 0 :: receivedStates s.d 0 frags) ++
            [⟨s.d + frags.sum, 0⟩], ⟨s.d + frags.sum, 0⟩, true, 1⟩ := rfl
      rw [heq]
      refine ⟨?_, ?_, Nat.le_add_right _ _⟩
      · rw [List.pairwise_append]
        refine ⟨pairwise_dle_const _ s.d hconst,
          List.pairwise_singleton _ _, ?_⟩
        intro x hx y hy
        rw [hconst x hx]
        rcases List.mem_singleton.mp hy with rfl
        exact Nat.le_add_right _ _
      · intro x hx
        rcases List.mem_append.mp hx with hx | hx
        · rw [hconst x hx]
          exact ⟨le_refl _, Nat.le_add_right _ _⟩
        · rcases List.mem_singleton.mp hx with rfl
          exact ⟨Nat.le_add_right _ _, le_refl _⟩

lemma runChunk_states_d (mr : Nat) :
    ∀ (script : List Attempt) (s : PState) (r : Nat),
      List.Pairwise (fun x y => x.d ≤ y.d) (runChunk mr script s r).states ∧
      (∀ x ∈ (runChunk mr script s r).states,
        s.d ≤ x.d ∧ x.d ≤ (runChunk mr script s r).final.d) ∧
      s.d ≤ (runChunk mr script s r).final.d := by
  intro script
  induction script with
  | nil =>
    intro s r
    by_cases h : r < mr <;> simp [runChunk, h]
  | cons a rest ih =>
    intro s r
    by_cases h : r < mr
    · have ha := runAttempt_states_d s a
      by_cases hok : (runAttempt s a).ok = true
      · simpa [runChunk, h, hok] using ha
      · by_cases hthrow : mr ≤ r + 1
        · simpa [runChunk, h, hok, hthrow] using ha
        · have hrec := ih (runAttempt s a).final (r + 1)
          have hd : (runAttempt s a).final.d = s.d :=
            (runAttempt_not_ok s a (by simpa using hok)).2
          simp only [runChunk, h, if_pos, hok, Bool.false_eq_true, if_neg,
            hthrow, not_false_iff]
          refine ⟨?_, ?_, ?_⟩
          · rw [List.pairwise_append]
            refine ⟨ha.1, hrec.1, ?_⟩
            intro x hx y hy
            calc x.d ≤ (runAttempt s a).final.d := (ha.2.1 x hx).2
              _ ≤ y.d := (hrec.2.1 y hy).1
          · intro x hx
            rcases List.mem_append.mp hx with hx | hx
            · obtain ⟨h1, h2⟩ := ha.2.1 x hx
              have h3 := hrec.2.2
              exact ⟨h1, by omega⟩
            · obtain ⟨h1, h2⟩ := hrec.2.1 x hx
              exact ⟨by omega, h2⟩
          · have h3 := hrec.2.2
            omega
    · simp [runChunk, h]

lemma runChunk_no_stuck_result (mr : Nat) :
    ∀ (script : List Attempt) (s : PState) (r : Nat), r < mr →
      (runChunk mr script s r).result ≠ .stuck := by
  intro script
  induction script with
  | nil => intro s r h; simp [runChunk, h]
  | cons a rest ih =>
    intro s r h
    by_cases hok : (runAttempt s a).ok = true
    · simp [runChunk, h, hok]
    · by_cases hthrow : mr ≤ r + 1
      · simp [runChunk, h, hok, hthrow]
      · have := ih (runAttempt s a).final (r + 1) (by omega)
        simpa [runChunk, h, hok, hthrow] using this

lemma runChunk_stuck_empty (mr : Nat) (script : List Attempt) (s : PState)
    (r : Nat) (h : (runChunk mr script s r).result = .stuck) :
    (runChunk mr script s r).states = [] ∧
      (runChunk mr script s r).final = s := by
  by_cases hlt : r < mr
  · exact absurd h (runChunk_no_stuck_result mr script s r hlt)
  · cases script <;> simp [runChunk, hlt]

lemma runTransfer_states_d (c t mr : Nat) :
    ∀ (scripts : List (List Attempt)) (d : Nat),
      List.Pairwise (fun x y => x.d ≤ y.d)
        (runTransfer c t mr scripts d).states ∧
      (∀ x ∈ (runTransfer c t mr scripts d).states,
        d ≤ x.d ∧ x.d ≤ (runTransfer c t mr scripts d).dFinal) ∧
      d ≤ (runTransfer c t mr scripts d).dFinal := by
  intro scripts
  induction scripts with
  | nil =>
    intro d
    by_cases h : d < t <;> simp [runTransfer, h]
  | cons sc rest ih =>
    intro d
    by_cases h : d < t
    · have hchunk := runChunk_states_d mr sc ⟨d, 0⟩ 0
      cases hres : (runChunk mr sc ⟨d, 0⟩ 0).result with
      | committed =>
        have hrec := ih (runChunk mr sc ⟨d, 0⟩ 0).final.d
        simp only [runTransfer, h, if_pos, hres]
        refine ⟨?_, ?_, ?_⟩
        · rw [List.pairwise_append]
          refine ⟨hchunk.1, hrec.1, ?_⟩
          intro x hx y hy
          calc x.d ≤ (runChunk mr sc ⟨d, 0⟩ 0).final.d := (hchunk.2.1 x hx).2
            _ ≤ y.d := (hrec.2.1 y hy).1
        · intro x hx
          rcases List.mem_append.mp hx with hx | hx
          · obtain ⟨h1, h2⟩ := hchunk.2.1 x hx
            exact ⟨h1, le_trans h2 hrec.2.2⟩
          · obtain ⟨h1, h2⟩ := hrec.2.1 x hx
            exact ⟨le_trans hchunk.2.2 h1, h2⟩
        · exact le_trans hchunk.2.2 hrec.2.2
      | threw => simpa [runTransfer, h, hres] using hchunk
      | stuck =>
        have hstates := (runChunk_stuck_empty mr sc ⟨d, 0⟩ 0 hres).1
        simp only [runTransfer, h, if_pos, hres]
        refine ⟨hchunk.1, ?_, le_refl _⟩
        intro x hx
        rw [hstates] at hx
        simp at hx
      | outOfScript => simpa [runTransfer, h, hres] using hchunk
    · simp [runTransfer, h]

lemma runChunk_spec (mr : Nat) :
    ∀ (script : List Attempt) (s : PState) (r : Nat), r < mr →
      (runChunk mr script s r).attempts + r ≤ mr ∧
      ((runChunk mr script s r).result = .committed →
        (runChunk mr script s r).writes = 1) ∧
      ((runChunk mr script s r).result = .threw →
        (runChunk mr script s r).writes = 0 ∧
        (runChunk mr script s r).attempts + r = mr) ∧
      ((runChunk mr script s r).result = .outOfScript →
        (runChunk mr script s r).writes = 0) := by
  intro script
  induction script with
  | nil =>
    intro s r h
    refine ⟨by simp [runChunk, h]; omega, ?_, ?_, ?_⟩ <;>
      simp [runChunk, h]
  | cons a rest ih =>
    intro s r h
    by_cases hok : (runAttempt s a).ok = true
    · have hw := (runAttempt_ok s a hok).1
      refine ⟨?_, ?_, ?_, ?_⟩ <;> simp [runChunk, h, hok, hw]
      omega
    · have hw := (runAttempt_not_ok s a (by simpa using hok)).1
      by_cases hthrow : mr ≤ r + 1
      · refine ⟨?_, ?_, ?_, ?_⟩ <;> simp [runChunk, h, hok, hthrow, hw] <;>
          omega
      · obtain ⟨ha1, ha2, ha3, ha4⟩ :=
          ih (runAttempt s a).final (r + 1) (by omega)
        have heq : runChunk mr (a :: rest) s r =
            ⟨(runAttempt s a).states ++
                (runChunk mr rest (runAttempt s a).final (r + 1)).states,
              (runChunk mr rest (runAttempt s a).final (r + 1)).final,
              (runChunk mr rest (runAttempt s a).final (r + 1)).result,
              (runAttempt s a).writes +
                (runChunk mr rest (runAttempt s a).final (r + 1)).writes,
              1 + (runChunk mr rest (runAttempt s a).final (r + 1)).attempts⟩ := by
          simp [runChunk, h, hok, hthrow]
        rw [heq]
        dsimp only
        refine ⟨by omega, ?_, ?_, ?_⟩
        · intro hc; rw [hw, ha2 hc]
        · intro hc; obtain ⟨hb1, hb2⟩ := ha3 hc
          exact ⟨by omega, by omega⟩
        · intro hc; rw [hw, ha4 hc]

lemma runTransfer_no_stuck (c t mr : Nat) (hmr : 0 < mr) :
    ∀ (scripts : List (List Attempt)) (d d' : Nat),
      (runTransfer c t mr scripts d).outcome ≠ .stuck d' := by
  intro scripts
  induction scripts with
  | nil => intro d d'; by_cases h : d < t <;> simp [runTransfer, h]
  | cons sc rest ih =>
    intro d d'
    by_cases h : d < t
    · cases hres : (runChunk mr sc ⟨d, 0⟩ 0).result with
      | committed => simpa [runTransfer, h, hres] using ih _ d'
      | threw => simp [runTransfer, h, hres]
      | stuck => exact absurd hres (runChunk_no_stuck_result mr sc ⟨d, 0⟩ 0 hmr)
      | outOfScript => simp [runTransfer, h, hres]
    · simp [runTransfer, h]

lemma runAttempt_bound (t len : Nat) (s : PState) (a : Attempt)
    (hcomp : attemptCompliant len a = true) (hd : s.d + len ≤ t) :
    (∀ x ∈ (runAttempt s a).states, x.d + x.cur ≤ t) ∧
    (runAttempt s a).final.d ≤ s.d + len := by
  cases a with
  | fail =>
    refine ⟨by simp [runAttempt], ?_⟩
    have : (runAttempt s .fail).final.d = s.d := rfl
    omega
  | stream frags completes =>
    have hsum : frags.sum ≤ len := by simpa [attemptCompliant] using hcomp
    have hrs := receivedStates_mem s.d frags 0
    cases completes with
    | false =>
      have heq : runAttempt s (.stream frags false) =
          ⟨PState.mk s.d 0 :: receivedStates s.d 0 frags,
            ⟨s.d, frags.sum⟩, false, 0⟩ := rfl
      rw [heq]
      dsimp only
      refine ⟨?_, by omega⟩
      intro x hx
      rcases List.mem_cons.mp hx with rfl | hx
      · dsimp only
        omega
      · obtain ⟨h1, h2⟩ := hrs x hx
        omega
    | true =>
      have heq : runAttempt s (.stream frags true) =
          ⟨(PState.mk s.d 0 :: receivedStates s.d 0 frags) ++
            [⟨s.d + frags.sum, 0⟩], ⟨s.d + frags.sum, 0⟩, true, 1⟩ := rfl
      rw [heq]
      dsimp only
      refine ⟨?_, by omega⟩
      intro x hx
      rcases List.mem_append.mp hx with hx | hx
      · rcases List.mem_cons.mp hx with rfl | hx
        · dsimp only
          omega
        · obtain ⟨h1, h2⟩ := hrs x hx
          omega
      · rcases List.mem_singleton.mp hx with rfl
        dsimp only
        omega

lemma runChunk_bound (t len mr : Nat) :
    ∀ (script : List Attempt) (s : PState) (r : Nat),
      script.all (attemptCompliant len) = true → s.d + len ≤ t →
      (∀ x ∈ (runChunk mr script s r).states, x.d + x.cur ≤ t) ∧
      (runChunk mr script s r).final.d ≤ s.d + len := by
  intro script
  induction script with
  | nil =>
    intro s r _ hd
    by_cases h : r < mr <;> simp [runChunk, h]
  | cons a rest ih =>
    intro s r hall hd
    obtain ⟨hca, hcrest⟩ : attemptCompliant len a = true ∧
        rest.all (attemptCompliant len) = true := by simpa using hall
    have hatt := runAttempt_bound t len s a hca hd
    by_cases h : r < mr
    · by_cases hok : (runAttempt s a).ok = true
      · simpa [runChunk, h, hok] using hatt
      · by_cases hthrow : mr ≤ r + 1
        · simpa [runChunk, h, hok, hthrow] using hatt
        · have hfd := (runAttempt_not_ok s a (by simpa using hok)).2
          have hrec := ih (runAttempt s a).final (r + 1) hcrest (by omega)
          simp only [runChunk, h, if_pos, hok, Bool.false_eq_true, if_neg,
            hthrow, not_false_iff]
          refine ⟨?_, ?_⟩
          · intro x hx
            rcases List.mem_append.mp hx with hx | hx
            · exact hatt.1 x hx
            · exact hrec.1 x hx
          · have := hrec.2
            omega
    · simp [runChunk, h]

lemma runTransfer_bound (c t mr : Nat) :
    ∀ (scripts : List (List Attempt)) (d : Nat),
      runCompliant c t mr scripts d = true → d ≤ t →
      ∀ x ∈ (runTransfer c t mr scripts d).states, x.d + x.cur ≤ t := by
  intro scripts
  induction scripts with
  | nil =>
    intro d _ _ x hx
    by_cases h : d < t <;> simp [runTransfer, h] at hx
  | cons sc rest ih =>
    intro d hcompl hdt x hx
    by_cases h : d < t
    · have hend := chunkEnd_lt (c := c) h
      have hlen : d + (chunkEnd c t d + 1 - d) ≤ t := by omega
      simp only [runCompliant, h, if_pos, Bool.and_eq_true] at hcompl
      obtain ⟨hc1, hc2⟩ := hcompl
      have hchunk := runChunk_bound t (chunkEnd c t d + 1 - d) mr sc
        ⟨d, 0⟩ 0 hc1 hlen
      cases hres : (runChunk mr sc ⟨d, 0⟩ 0).result with
      | committed =>
        rw [hres] at hc2
        simp only [runTransfer, h, if_pos, hres] at hx
        rcases List.mem_append.mp hx with hx | hx
        · exact hchunk.1 x hx
        · have hfd : (runChunk mr sc ⟨d, 0⟩ 0).final.d ≤ t := by
            have h2 := hchunk.2
            dsimp only at h2
            omega
          exact ih _ hc2 hfd x hx
      | threw =>
        rw [hres] at hc2
        simp only [runTransfer, h, if_pos, hres] at hx
        exact hchunk.1 x hx
      | stuck =>
        rw [hres] at hc2
        simp only [runTransfer, h, if_pos, hres] at hx
        exact hchunk.1 x hx
      | outOfScript =>
        rw [hres] at hc2
        simp only [runTransfer, h, if_pos, hres] at hx
        exact hchunk.1 x hx
    · simp [runTransfer, h] at hx

lemma getProgress_le_100 (t d cur : Nat) (h : d + cur ≤ t) :
    getProgress t d cur ≤ 100 := by
  by_cases h0 : 0 < t
  · simp only [getProgress, h0, if_pos]
    calc (d + cur) * 100 / t ≤ t * 100 / t :=
          Nat.div_le_div_right (Nat.mul_le_mul_right 100 h)
      _ = 100 := Nat.mul_div_cancel_left 100 h0
  · simp [getProgress, h0]

lemma getProgress_mono (t : Nat) {d d' cur cur' : Nat} (hd : d ≤ d')
    (hc : cur ≤ cur') : getProgress t d cur ≤ getProgress t d' cur' := by
  by_cases h0 : 0 < t
  · simp only [getProgress, h0, if_pos]
    exact Nat.div_le_div_right (Nat.mul_le_mul_right 100 (by omega))
  · simp [getProgress, h0]

lemma checkPause_resolved (rest : List (Bool × Bool)) :
    ∀ (k : Nat) (b : Bool),
      checkPause b (List.replicate k (false, true) ++ (false, false) :: rest) =
        .resolved := by
  intro k
  induction k with
  | zero => intro b; simp [checkPause]
  | succ n ih => intro b; simpa [List.replicate_succ, checkPause] using ih false

lemma checkPause_timer_abort (p : Bool) (rest : List (Bool × Bool)) :
    ∀ k : Nat,
      checkPause false (List.replicate k (false, true) ++ (true, p) :: rest) =
        .hung := by
  intro k
  induction k with
  | zero => simp [checkPause]
  | succ n ih => simpa [List.replicate_succ, checkPause] using ih

/-! ## Claim C3: the pause gate -/

/-- Claim C3 counterexample: with the paused flag set at the first check and
the aborted flag set at the second (an abort arriving during the wait), the
pause-gate promise never settles (`hung`): the abort error is thrown inside a
`setTimeout` callback, outside the promise executor, so it is NOT raised to
the waiting caller as the claim states. -/
theorem pause_gate_abort_hangs_counterexample :
    waitWhilePaused [(false, true), (true, true)] = .hung ∧
      waitWhilePaused [(false, true), (true, true)] ≠ .rejected := by
  exact ⟨rfl, by decide⟩

/-- Claim C3 (amended): when the aborted flag is set at entry the pause gate
rejects immediately without waiting; when neither flag is set it resolves
immediately; when the paused flag is set it re-checks at the polling interval
and resolves once the paused flag is observed false; but if the aborted flag
becomes true at a re-check during the wait, the abort error is thrown in the
timer context and the waiting caller's promise never settles (it hangs rather
than receiving the abort error). -/
theorem pause_gate_behavior :
    (∀ (p : Bool) (rest : List (Bool × Bool)),
      waitWhilePaused ((true, p) :: rest) = .rejected) ∧
    (∀ rest : List (Bool × Bool),
      waitWhilePaused ((false, false) :: rest) = .resolved) ∧
    (∀ (k : Nat) (rest : List (Bool × Bool)),
      waitWhilePaused
        (List.replicate k (false, true) ++ (false, false) :: rest) =
        .resolved) ∧
    (∀ (k : Nat) (p : Bool) (rest : List (Bool × Bool)),
      waitWhilePaused
        (List.replicate (k + 1) (false, true) ++ (true, p) :: rest) =
        .hung) := by
  refine ⟨fun p rest => rfl, fun rest => rfl, ?_, ?_⟩
  · intro k rest
    exact checkPause_resolved rest k true
  · intro k p rest
    unfold waitWhilePaused
    rw [List.replicate_succ]
    simpa [checkPause] using checkPause_timer_abort p rest k

/-! ## Claim C7: linear backoff, not cancellable by abort -/

/-- Claim C7 counterexample: an abort at time 5 during the backoff wait after
the first failed attempt (a 1000 ms timer) does not settle the wait early:
the wait still settles at 1000 ms, because the backoff promise of
src/index.js line 175 has no abort signal attached and `currentController`
is null there. The claim's assertion that an abort cancels the backoff wait
is false. -/
theorem backoff_abort_no_cancel_counterexample :
    cancelledBy (backoffSources 1) 5 = false ∧
      settleTime (backoffSources 1) (some 5) = some 1000 := by
  exact ⟨rfl, rfl⟩

/-- Claim C7 (amended): after failure number `n` the backoff wait lasts
`n × 1000` ms (linear backoff with base delay 1000 ms = one time unit), for
any abort time; an abort during the backoff does NOT cancel the wait (the
wait always runs to completion and the abort is only observed afterwards),
whereas a promise with an abort signal attached — such as the chunk fetch —
is settled early by an abort arriving before its timer. -/
theorem backoff_linear_uncancellable :
    (∀ n : Nat, backoffDelay n = n * 1000) ∧
    (∀ n a : Nat, settleTime (backoffSources n) (some a) = some (1000 * n)) ∧
    (∀ n a : Nat, cancelledBy (backoffSources n) a = false) ∧
    (∀ a d : Nat, a < d → cancelledBy [.timer d, .abortSignal] a = true) := by
  refine ⟨fun n => Nat.mul_comm 1000 n, fun n a => rfl, fun n a => ?_, ?_⟩
  · simp [cancelledBy, settleTime, backoffSources, sourceTime]
  · intro a d h
    simp only [cancelledBy, settleTime, List.filterMap, sourceTime]
    simp [List.min?, Nat.min_def, h.le, Nat.not_lt.mpr h.le, h]

/-- Claim C7 witness: a fetch-style promise with a 1000 ms timeout and an
attached abort signal is settled early by an abort at time 5. -/
theorem backoff_linear_uncancellable_witness :
    cancelledBy [SettleSource.timer 1000, .abortSignal] 5 = true :=
  backoff_linear_uncancellable.2.2.2 5 1000 (by decide)

/-! ## Claim C9: control calls after settlement -/

/-- Claim C9 counterexample: in the state of a settled, successful transfer
(not paused, not aborted, no active controller or timer, all 1024 bytes
committed), calling `pause()` changes the observable state — `isPaused()`
flips from false to true — and emits a `paused` status callback, so the call
is not a no-op as the claim states. -/
theorem pause_after_settle_counterexample :
    (pauseFn ⟨false, false, false, false, 1024, 1024, 0⟩).1 ≠
        ⟨false, false, false, false, 1024, 1024, 0⟩ ∧
      (pauseFn ⟨false, false, false, false, 1024, 1024, 0⟩).1.isPaused = true ∧
      (pauseFn ⟨false, false, false, false, 1024, 1024, 0⟩).2 = ["paused"] := by
  exact ⟨by decide, rfl, rfl⟩

/-- Claim C9 (amended): `pause()`, `resume()` and `abort()` are safe to call
at any time — their bodies are total and consult nothing about whether the
transfer has settled — but they are not no-ops after settlement: each call
still sets its flag and emits its status callback, observable through
`isPaused()`/`isAborted()` and `onStatus`. They never change `getProgress()`,
`pause`/`resume` never change the aborted flag (so `resume` cannot undo an
abort), and a repeated `abort()` leaves the state fixed. -/
theorem control_calls_after_settle (s : ControlState) :
    ((pauseFn s).1.isPaused = true ∧ (pauseFn s).2 = ["paused"]) ∧
    ((resumeFn s).1.isPaused = false ∧ (resumeFn s).2 = ["downloading"]) ∧
    ((abortFn s).1.isAborted = true ∧ (abortFn s).2 = ["aborted"]) ∧
    (pauseFn s).1.isAborted = s.isAborted ∧
    (resumeFn s).1.isAborted = s.isAborted ∧
    (abortFn (abortFn s).1).1 = (abortFn s).1 ∧
    (resumeFn (abortFn s).1).1.isAborted = true ∧
    getProgressOf (pauseFn s).1 = getProgressOf s ∧
    getProgressOf (resumeFn s).1 = getProgressOf s ∧
    getProgressOf (abortFn s).1 = getProgressOf s :=
  ⟨⟨rfl, rfl⟩, ⟨rfl, rfl⟩, ⟨rfl, rfl⟩, rfl, rfl, rfl, rfl, rfl, rfl, rfl⟩

/-! ## Claim C10: header merging -/

/-- Claim C10 counterexample: a caller-supplied `Authorization` header with
the empty-string value is a present key of the merged map, yet
`buildHeaders` still installs the Bearer token over it, because the source
tests JS truthiness (`!h.Authorization`) rather than key presence; the
caller's entry is not passed through unchanged. -/
theorem empty_authorization_counterexample :
    jsGet [("Authorization", "")] "Authorization" = some "" ∧
      jsGet (buildHeaders [("Authorization", "")] (some "tok") (rangeExtra 0 99))
          "Authorization" = some "Bearer tok" := by
  exact ⟨rfl, rfl⟩

/-- Claim C10 (amended): on a range request the computed `Range` and
`Cache-Control` entries overwrite caller-supplied entries of those names;
every caller-supplied header under any other name is passed through
unchanged, except that `Authorization` is passed through only when its value
is truthy (non-empty): the Bearer token is added exactly when the token is
truthy and the merged map has no truthy `Authorization` value — an
empty-string `Authorization` is treated as absent and overwritten. -/
theorem header_merge (base : List (String × String)) (token : Option String)
    (s e : Nat) :
    jsGet (buildHeaders base token (rangeExtra s e)) "Range" =
        some ("bytes=" ++ toString s ++ "-" ++ toString e) ∧
    jsGet (buildHeaders base token (rangeExtra s e)) "Cache-Control" =
        some "no-cache" ∧
    (∀ k, k ≠ "Range" → k ≠ "Cache-Control" → k ≠ "Authorization" →
      jsGet (buildHeaders base token (rangeExtra s e)) k = jsGet base k) ∧
    (truthy (jsGet base "Authorization") = true →
      jsGet (buildHeaders base token (rangeExtra s e)) "Authorization" =
        jsGet base "Authorization") ∧
    (truthy token = true → truthy (jsGet base "Authorization") = false →
      jsGet (buildHeaders base token (rangeExtra s e)) "Authorization" =
        some ("Bearer " ++ token.getD "")) := by
  have hAuthExtra : jsGet (rangeExtra s e) "Authorization" = none :=
    jsGet_rangeExtra_other s e _ (by decide) (by decide)
  have hMergedAuth :
      jsGet (jsSpread base (rangeExtra s e)) "Authorization" =
        jsGet base "Authorization" := by
    rw [jsGet_spread, hAuthExtra]; rfl
  unfold buildHeaders
  by_cases hcond :
      (truthy token && !truthy (jsGet (jsSpread base (rangeExtra s e))
        "Authorization")) = true
  · simp only [hcond, if_pos]
    refine ⟨?_, ?_, ?_, ?_, ?_⟩
    · rw [jsGet_spread, jsGet_spread, jsGet_rangeExtra_range]
      have : jsGet [("Authorization", "Bearer " ++ token.getD "")] "Range" =
          none := by
        rw [jsGet_cons, jsGet_nil]; simp [show (("Authorization" : String) ==
          "Range") = false from by decide]
      rw [this]; rfl
    · rw [jsGet_spread, jsGet_spread, jsGet_rangeExtra_cache]
      have : jsGet [("Authorization", "Bearer " ++ token.getD "")]
          "Cache-Control" = none := by
        rw [jsGet_cons, jsGet_nil]; simp [show (("Authorization" : String) ==
          "Cache-Control") = false from by decide]
      rw [this]; rfl
    · intro k h1 h2 h3
      rw [jsGet_spread, jsGet_spread, jsGet_rangeExtra_other s e k h1 h2]
      have : jsGet [("Authorization", "Bearer " ++ token.getD "")] k =
          none := by
        rw [jsGet_cons, jsGet_nil]
        have : ("Authorization" == k) = false := by
          simp only [beq_eq_false_iff_ne, ne_eq]
          exact fun hcon => h3 hcon.symm
        simp [this]
      rw [this]; rfl
    · intro htr
      rw [hMergedAuth, htr] at hcond
      simp at hcond
    · intro _ _
      rw [jsGet_spread, jsGet_cons, jsGet_nil]
      simp [show (("Authorization" : String) == "Authorization") = true from
        by decide]
  · simp only [hcond, if_neg, Bool.false_eq_true, not_false_iff]
    refine ⟨?_, ?_, ?_, ?_, ?_⟩
    · rw [jsGet_spread, jsGet_rangeExtra_range]; rfl
    · rw [jsGet_spread, jsGet_rangeExtra_cache]; rfl
    · intro k h1 h2 _
      rw [jsGet_spread, jsGet_rangeExtra_other s e k h1 h2]; rfl
    · intro _; exact hMergedAuth
    · intro ht hf
      rw [hMergedAuth] at hcond
      rw [ht, hf] at hcond
      simp at hcond

/-- Claim C10 witness: a caller-supplied non-empty `Authorization` header
survives the merge even when a token is configured, and a custom header is
passed through. -/
theorem header_merge_witness :
    jsGet (buildHeaders [("X-API-Key", "k1"), ("Authorization", "Basic xyz")]
        (some "tok") (rangeExtra 0 99)) "Authorization" = some "Basic xyz" ∧
      jsGet (buildHeaders [("X-API-Key", "k1"), ("Authorization", "Basic xyz")]
        (some "tok") (rangeExtra 0 99)) "X-API-Key" = some "k1" := by
  refine ⟨?_, ?_⟩
  · have h := (header_merge [("X-API-Key", "k1"), ("Authorization", "Basic xyz")]
      (some "tok") 0 99).2.2.2.1 (by decide)
    rw [h]; rfl
  · have h := (header_merge [("X-API-Key", "k1"), ("Authorization", "Basic xyz")]
      (some "tok") 0 99).2.2.1 "X-API-Key" (by decide) (by decide) (by decide)
    rw [h]; rfl

/-! ## Claim C1: chunk ranges tile the file -/

/-- Claim C1: for every transfer with `totalSize > 0` and `chunkSize > 0`
that runs to completion, the dispatched chunk ranges `[start, end]` satisfy
`end = min(start + chunkSize - 1, totalSize - 1)`; the first range starts at
0 and each subsequent range starts right after its predecessor's end
(contiguity); every byte position `p < totalSize` is covered by exactly one
range and no position `≥ totalSize` by any (non-overlap and exact union
`[0, totalSize - 1]`); each range's start equals the sum of the lengths of
the ranges before it (the committed size at dispatch); an exact multiple of
`chunkSize` yields only full-length chunks (no trailing short chunk); and a
size smaller than `chunkSize` yields exactly one chunk. -/
theorem chunk_ranges_tile (c t : Nat) (hc : 0 < c) (ht : 0 < t) :
    (∀ r ∈ chunkRanges c t, r.1 ≤ r.2 ∧ r.2 = min (r.1 + c - 1) (t - 1)) ∧
    (chunkRanges c t).head?.map Prod.fst = some 0 ∧
    List.Chain' (fun a b => b.1 = a.2 + 1) (chunkRanges c t) ∧
    (∀ p, (chunkRanges c t).countP (fun r => decide (r.1 ≤ p ∧ p ≤ r.2)) =
      if p < t then 1 else 0) ∧
    (∀ i r, ((chunkRanges c t).drop i).head? = some r →
      r.1 = (((chunkRanges c t).take i).map rangeLen).sum) ∧
    (c ∣ t → ∀ r ∈ chunkRanges c t, rangeLen r = c) ∧
    (t < c → chunkRanges c t = [(0, t - 1)]) := by
  obtain ⟨n, rfl⟩ : ∃ n, t = n + 1 := ⟨t - 1, by omega⟩
  refine ⟨fun r hr => chunkRangesAux_mem _ _ hc _ _ r hr, ?_, ?_, ?_, ?_, ?_, ?_⟩
  · unfold chunkRanges
    rw [chunkRangesAux_cons _ _ n (by omega) hc]
    rfl
  · exact chunkRangesAux_chain _ _ _ _
  · intro p
    have := chunkRangesAux_cover c (n + 1) hc p (n + 1) 0 (by omega)
    simpa using this
  · intro i r h
    simpa using chunkRangesAux_get_fst _ _ hc _ 0 i r h
  · intro hdvd r hr
    exact chunkRangesAux_dvd _ _ hc hdvd _ 0 (dvd_zero c) r hr
  · intro hlt
    unfold chunkRanges
    rw [chunkRangesAux_cons _ _ n (by omega) hc]
    have hEnd : chunkEnd c (n + 1) 0 = n := by unfold chunkEnd; omega
    rw [hEnd, chunkRangesAux_of_ge c (n + 1) (n + 1) (by omega)]
    simp

/-- Claim C1 witness: the README scenario — a 250-unit file with 100-unit
chunks — yields exactly the three ranges `0-99`, `100-199`, `200-249`, and
position 150 is covered exactly once. -/
theorem chunk_ranges_tile_witness :
    chunkRanges 100 250 = [(0, 99), (100, 199), (200, 249)] ∧
      (chunkRanges 100 250).countP
        (fun r => decide (r.1 ≤ 150 ∧ 150 ≤ r.2)) = 1 := by
  refine ⟨by decide, ?_⟩
  have h := (chunk_ranges_tile 100 250 (by decide) (by decide)).2.2.2.1 150
  simpa using h

/-! ## Claim C8: size discovery -/

/-- Claim C8: size discovery fails the transfer — the promise rejects with
`Failed to get file info` (line 70) or `Could not determine file size`
(line 73) — if and only if the HEAD response is not ok or the parsed
Content-Length is zero, where the parsed value is zero exactly when the
header is missing, unparsable, or reports zero (zero is invalid, not an
empty-file success); in every such case the rejection happens before
`showSaveFilePicker` is invoked, so no sink is acquired. -/
theorem size_discovery_iff (w : World) :
    (((runController w).result = .errHead ∨ (runController w).result = .errSize)
      ↔ (w.headOk = false ∨ parsedSize w.contentLength = 0)) ∧
    (((runController w).result = .errHead ∨ (runController w).result = .errSize)
      → (runController w).acquires = 0) ∧
    (parsedSize w.contentLength = 0 ↔
      (w.contentLength = .missing ∨ (∃ s, w.contentLength = .unparsable s) ∨
        w.contentLength = .num 0)) := by
  obtain ⟨hOk, cl, aOk, body, cOk⟩ := w
  refine ⟨?_, ?_, ?_⟩
  · cases hOk <;> cases aOk <;> cases cOk <;> cases body <;>
      by_cases h0 : parsedSize cl = 0 <;> simp [runController, h0]
  · cases hOk <;> cases aOk <;> cases cOk <;> cases body <;>
      by_cases h0 : parsedSize cl = 0 <;> simp [runController, h0]
  · cases cl with
    | missing => simp [parsedSize]
    | unparsable s => simp [parsedSize]
    | num n =>
      simp only [parsedSize]
      constructor
      · intro h; right; right; rw [h]
      · rintro (h | ⟨s, h⟩ | h) <;> simp at h ⊢
        omega

/-- Claim C8 witness: a reported size of zero rejects with the size error and
no sink acquisition happens. -/
theorem size_discovery_iff_witness :
    (runController ⟨true, .num 0, true, .success, true⟩).acquires = 0 :=
  (size_discovery_iff ⟨true, .num 0, true, .success, true⟩).2.1
    (Or.inr (by decide))

/-! ## Claim C5: sink lifecycle -/

/-- Claim C5 counterexample: when the transfer body succeeds but the
finalizing `writer.close()` of line 190 itself throws, the catch block
(line 197) invokes `writer.close()` a second time: the close operation runs
twice on this path, refuting "its close operation is invoked at most once
... including a failure of the close operation itself". -/
theorem double_close_counterexample :
    (runController ⟨true, ContentLen.num 1024, true, .success, false⟩).closes
      = 2 := rfl

/-- Claim C5 (amended): across every execution path the sink is acquired at
most once; the close operation is invoked at most once on every path except
the one where the finalizing close itself fails, where it is invoked exactly
twice (line 190, then again at line 197); it is never invoked more than
twice; and in the mid-download abort scenario it is invoked exactly once. -/
theorem sink_close_discipline (w : World) :
    (runController w).acquires ≤ 1 ∧
    (¬ (w.body = .success ∧ w.closeOk = false) →
      (runController w).closes ≤ 1) ∧
    (runController w).closes ≤ 2 ∧
    (w.headOk = true → parsedSize w.contentLength ≠ 0 → w.acquireOk = true →
      w.body = .aborted → (runController w).closes = 1) := by
  obtain ⟨hOk, cl, aOk, body, cOk⟩ := w
  refine ⟨?_, ?_, ?_, ?_⟩ <;>
    cases hOk <;> cases aOk <;> cases cOk <;> cases body <;>
      by_cases h0 : parsedSize cl = 0 <;> simp [runController, h0]

/-- Claim C5 witness: an abort in mid-download, after a successful HEAD, a
valid size and an acquired sink, closes the sink exactly once. -/
theorem sink_close_discipline_witness :
    (runController ⟨true, .num 300, true, .aborted, true⟩).closes = 1 :=
  (sink_close_discipline ⟨true, .num 300, true, .aborted, true⟩).2.2.2
    rfl (by decide) rfl rfl

/-! ## Claim C2: progress monotonicity -/

/-- Claim C2 counterexample: one chunk of a 100-byte file streams 50 bytes,
then the read throws; the retry fetch succeeds and resets
`currentChunkProgress` to 0 (line 119) before re-streaming. The observable
progress values are `[0, 50, 0, 100, 100]`: `getProgress()` drops from 50
back to 0 across the failed attempt and its retry, so it is not
non-decreasing over the lifetime of the transfer. -/
theorem progress_regress_counterexample :
    ((runTransfer 100 100 2 [[.stream [50] false, .stream [100] true]]
        0).states.map (fun x => getProgress 100 x.d x.cur)) =
      [0, 50, 0, 100, 100] ∧
    ¬ List.Chain' (· ≤ ·)
      ((runTransfer 100 100 2 [[.stream [50] false, .stream [100] true]]
        0).states.map (fun x => getProgress 100 x.d x.cur)) := by
  have h : ((runTransfer 100 100 2 [[.stream [50] false, .stream [100] true]]
      0).states.map (fun x => getProgress 100 x.d x.cur)) =
      [0, 50, 0, 100, 100] := rfl
  refine ⟨h, ?_⟩
  rw [h]
  intro hch
  simp [List.chain'_cons] at hch

/-- Claim C2 (amended): over the lifetime of one transfer the committed size
is non-decreasing across every pair of observation points, and `getProgress`
never falls below the committed-size baseline of any earlier point — in
particular a chunk commit preserves the value exactly, since `getProgress`
depends only on the sum `downloadedSize + currentChunkProgress`; but after a
failed attempt that streamed some bytes, the retry resets the in-flight
count, so `getProgress` can regress to the committed baseline (it never
regresses below it). -/
theorem progress_monotonicity_amended (c t mr : Nat)
    (scripts : List (List Attempt)) :
    (∀ d r : Nat, getProgress t d r = getProgress t (d + r) 0) ∧
    List.Pairwise (fun a b => a.d ≤ b.d)
      (⟨0, 0⟩ :: (runTransfer c t mr scripts 0).states) ∧
    List.Pairwise (fun a b => getProgress t a.d 0 ≤ getProgress t b.d b.cur)
      (⟨0, 0⟩ :: (runTransfer c t mr scripts 0).states) := by
  have h := runTransfer_states_d c t mr scripts 0
  have hpw : List.Pairwise (fun a b => a.d ≤ b.d)
      (PState.mk 0 0 :: (runTransfer c t mr scripts 0).states) := by
    rw [List.pairwise_cons]
    exact ⟨fun x hx => (h.2.1 x hx).1, h.1⟩
  refine ⟨fun d r => by simp [getProgress], hpw, ?_⟩
  exact hpw.imp (fun hab => getProgress_mono t hab (Nat.zero_le _))

/-! ## Claim C4: per-chunk termination -/

/-- Claim C4 counterexample: with `maxRetries = 0` the retry loop's guard
`retries < maxRetries` is false at entry, so the loop body never runs: the
chunk neither commits nor throws and the state is returned unchanged
(`stuck`), even though the transport would succeed on the first attempt.
The outer loop then re-runs the identical iteration with identical state, so
the transfer loops forever without making progress or failing, refuting the
claim for `maxRetries = 0`. -/
theorem maxretries_zero_counterexample :
    runChunk 0 [.stream [100] true] ⟨0, 0⟩ 0 = ⟨[], ⟨0, 0⟩, .stuck, 0, 0⟩ ∧
      (runTransfer 100 250 0 [[.stream [100] true]] 0).outcome = .stuck 0 := by
  exact ⟨rfl, rfl⟩

/-- Claim C4 (amended): for every `maxRetries = m + 1 ≥ 1` and any transport
behaviour, the retry loop always exits — committed, thrown, or the script
exhausted — never falling through unchanged; it uses at most `m + 1`
attempts; a committed chunk performs exactly one sink write; a thrown chunk
performed no write and used exactly `m + 1` (i.e. `maxRetries`) attempts;
and the whole transfer never reaches the non-progressing `stuck` state. For
`maxRetries = 0` this fails (see the counterexample). -/
theorem retry_termination (m : Nat) :
    (∀ (script : List Attempt) (s : PState),
      (runChunk (m + 1) script s 0).result ≠ .stuck ∧
      (runChunk (m + 1) script s 0).attempts ≤ m + 1 ∧
      ((runChunk (m + 1) script s 0).result = .committed →
        (runChunk (m + 1) script s 0).writes = 1) ∧
      ((runChunk (m + 1) script s 0).result = .threw →
        (runChunk (m + 1) script s 0).writes = 0 ∧
        (runChunk (m + 1) script s 0).attempts = m + 1)) ∧
    (∀ (c t : Nat) (scripts : List (List Attempt)) (d d' : Nat),
      (runTransfer c t (m + 1) scripts d).outcome ≠ .stuck d') := by
  constructor
  · intro script s
    have h0 : 0 < m + 1 := Nat.succ_pos m
    obtain ⟨h1, h2, h3, h4⟩ := runChunk_spec (m + 1) script s 0 h0
    refine ⟨runChunk_no_stuck_result (m + 1) script s 0 h0, by omega, h2, ?_⟩
    intro hc
    obtain ⟨hb1, hb2⟩ := h3 hc
    exact ⟨hb1, by omega⟩
  · intro c t scripts d d'
    exact runTransfer_no_stuck c t (m + 1) (Nat.succ_pos m) scripts d d'

/-- Claim C4 witness: with `maxRetries = 2`, a chunk that fails once and then
succeeds commits with exactly one write. -/
theorem retry_termination_witness :
    (runChunk 2 [Attempt.fail, .stream [100] true] ⟨0, 0⟩ 0).result =
        .committed ∧
      (runChunk 2 [Attempt.fail, .stream [100] true] ⟨0, 0⟩ 0).writes = 1 :=
  ⟨by decide,
    ((retry_termination 1).1 [Attempt.fail, .stream [100] true]
      ⟨0, 0⟩).2.2.1 (by decide)⟩

/-! ## Claim C6: the progress computation -/

/-- Claim C6: the progress computation is a pure function of
`(committedSize, inFlightSize, totalSize)`: it returns 0 whenever the total
size is not yet known (`totalSize = 0`), otherwise
`floor((committed + inFlight) / total × 100)` (natural-number division); its
result lies in `[0, 100]` whenever `committed + inFlight ≤ total`, and every
state reachable in a transfer driven by a range-compliant transport
satisfies that bound, so on reachable states the result is within
`[0, 100]`. -/
theorem progress_pure_function (t d cur : Nat) (h : d + cur ≤ t) :
    getProgress 0 d cur = 0 ∧
    (0 < t → getProgress t d cur = (d + cur) * 100 / t) ∧
    getProgress t d cur ≤ 100 ∧
    (∀ (c mr : Nat) (scripts : List (List Attempt)),
      runCompliant c t mr scripts 0 = true →
      ∀ x ∈ (runTransfer c t mr scripts 0).states,
        x.d + x.cur ≤ t ∧ getProgress t x.d x.cur ≤ 100) := by
  refine ⟨rfl, fun h0 => by simp [getProgress, h0], getProgress_le_100 t d cur h, ?_⟩
  intro c mr scripts hcompl x hx
  have hb := runTransfer_bound c t mr scripts 0 hcompl (Nat.zero_le t) x hx
  exact ⟨hb, getProgress_le_100 t x.d x.cur hb⟩

/-- Claim C6 witness: at `totalSize = 100`, `committed = 50`,
`inFlight = 10`, the progress is 60 and within bounds. -/
theorem progress_pure_function_witness :
    getProgress 100 50 10 = 60 ∧ getProgress 100 50 10 ≤ 100 :=
  ⟨by decide, (progress_pure_function 100 50 10 (by decide)).2.2.1⟩

end RangeRequestFetcher
